import Mathlib

/-!
# Verification of the zestify slot-assignment subsystem

Shallow embedding of the meal-planning core of the repository:
`utils/constants.py`, `utils/position_mapping.py`,
`services/ingredients.py`, `services/weekly.py`,
`db/ingredients_repository.py`, `db/weekly_repository.py`,
`routes/api.py`, `schemas/ingredients.py`.

Python dicts keyed by a fixed finite set of keys are embedded as
association lists; the external Supabase table is embedded as an explicit
list of rows threaded through each operation; the external LLM call and
the bleach HTML cleaner are parameters of `process_recipes`.
-/

set_option autoImplicit false

namespace Zestify

/-! ## utils/constants.py and utils/position_mapping.py -/

/-- Embedding of `POSITION_MAP` from `utils/constants.py` (the dict in
`utils/position_mapping.py` is textually identical), embedded as an
association list in source order. -/
def POSITION_MAP : List (Int × (String × String)) :=
  [ (0, ("Monday", "Lunch")),
    (1, ("Monday", "Dinner")),
    (2, ("Tuesday", "Lunch")),
    (3, ("Tuesday", "Dinner")),
    (4, ("Wednesday", "Lunch")),
    (5, ("Wednesday", "Dinner")),
    (6, ("Thursday", "Lunch")),
    (7, ("Thursday", "Dinner")),
    (8, ("Friday", "Lunch")),
    (9, ("Friday", "Dinner")),
    (10, ("Saturday", "Lunch")),
    (11, ("Saturday", "Dinner")),
    (12, ("Sunday", "Lunch")),
    (13, ("Sunday", "Dinner")) ]

/-- Embedding of `MEAL_TYPES` from `utils/constants.py`. -/
def MEAL_TYPES : List String := ["Lunch", "Dinner"]

/-- Embedding of `get_day_and_meal` from `utils/position_mapping.py`: raises `ValueError`
when the position is not a key of `POSITION_MAP`. -/
def get_day_and_meal (position : Int) : Except String (String × String) :=
  match POSITION_MAP.lookup position with
  | none => Except.error ("Invalid position " ++ toString position ++ ". Must be 0-13.")
  | some dm => Except.ok dm

/-! ## services/ingredients.py : `_get_position` -/

/-- The ad-hoc reverse map `day_meal_to_position` rebuilt inside
`IngredientService._get_position` on every call:
`{(day, meal): position for position, (day, meal) in POSITION_MAP.items()}`. -/
def day_meal_to_position : List ((String × String) × Int) :=
  POSITION_MAP.map (fun e => ((e.2.1, e.2.2), e.1))

/-- Embedding of `IngredientService._get_position`: `ValueError` on an unknown meal type
or a day/meal pair that is not one of the 14 canonical pairs. -/
def get_position (day_name meal_type : String) : Except String Int :=
  if (MEAL_TYPES.contains meal_type) = false then
    Except.error ("Invalid meal type '" ++ meal_type ++ "'. Must be one of: " ++
      String.intercalate ", " MEAL_TYPES)
  else
    match day_meal_to_position.lookup (day_name, meal_type) with
    | none => Except.error ("Invalid day/meal combination: " ++ day_name ++ " " ++ meal_type)
    | some p => Except.ok p

/-! ## Python string primitives

The Python string operations used by the parser, embedded over `List Char`
with structural recursion (a fuel argument bounded by the input length
stands in for the scanning loop) so that every concrete instance is
kernel-computable. -/

/-- Python default whitespace set for `str.strip()` / `str.splitlines()`. -/
def isPySpace (c : Char) : Bool :=
  c == ' ' || c == '\t' || c == '\n' || c == '\r' || c == '\x0B' || c == '\x0C'

/-- Does the second list start with the first one? -/
def listStartsWith : List Char → List Char → Bool
  | [], _ => true
  | _ :: _, [] => false
  | p :: ps, c :: cs => p == c && listStartsWith ps cs

/-- Scanning loop of Python `str.split(sep)` for a non-empty `sep`:
left-to-right, non-overlapping.  `fuel` dominates the number of characters
still to scan. -/
def splitGo (sep : List Char) : Nat → List Char → List Char → List (List Char)
  | 0, _, acc => [acc.reverse]
  | _ + 1, [], acc => [acc.reverse]
  | fuel + 1, c :: rest, acc =>
    if listStartsWith sep (c :: rest) then
      acc.reverse :: splitGo sep fuel ((c :: rest).drop sep.length) []
    else
      splitGo sep fuel rest (c :: acc)

/-- Scanning loop of Python `str.replace(old, new)` for a non-empty `old`. -/
def replaceGo (old new : List Char) : Nat → List Char → List Char
  | 0, s => s
  | _ + 1, [] => []
  | fuel + 1, c :: rest =>
    if listStartsWith old (c :: rest) then
      new ++ replaceGo old new fuel ((c :: rest).drop old.length)
    else
      c :: replaceGo old new fuel rest

/-- Python `"sep".join(xs)`. -/
def joinC (sep : List Char) : List (List Char) → List Char
  | [] => []
  | [x] => x
  | x :: y :: xs => x ++ sep ++ joinC sep (y :: xs)

/-- Python `str.strip()`. -/
def pyStrip (s : String) : String :=
  ⟨((s.data.dropWhile isPySpace).reverse.dropWhile isPySpace).reverse⟩

/-- Python `s.split(sep)` with an explicit non-empty separator. -/
def pySplit (s sep : String) : List String :=
  (splitGo sep.data (s.data.length + 1) s.data []).map (fun cs => ⟨cs⟩)

/-- Python `s.replace(old, new)`. -/
def pyReplace (s old new : String) : String :=
  ⟨replaceGo old.data new.data (s.data.length + 1) s.data⟩

/-- Python `s.startswith(p)`. -/
def pyStartsWith (s p : String) : Bool := listStartsWith p.data s.data

/-- Python `sep.join(xs)`. -/
def pyJoin (sep : String) (xs : List String) : String :=
  ⟨joinC sep.data (xs.map String.data)⟩

/-- Python `str.lstrip("# ")`: drop every leading character belonging to
the set `{'#', ' '}`. -/
def pyLstripHashSpace (s : String) : String :=
  ⟨s.data.dropWhile (fun c => c == '#' || c == ' ')⟩

/-! ## services/ingredients.py : `_parse_input_to_list` -/

/-- A `ParsedRecipe`: the `{"url": ..., "ingredients": ...}` dicts built by
`_parse_input_to_list`. -/
structure Recipe where
  url : String
  ingredients : String
deriving Repr, DecidableEq

/-- The body of the `for section in sections` loop of
`_parse_input_to_list`; `none` models `continue` / not appending. -/
def parseSection (sec : String) : Option Recipe :=
  if pyStrip sec = "" then none
  else
    let lines := pySplit (pyStrip sec) "\n"
    let url := pyStrip (pyLstripHashSpace (pyStrip (lines.headD "")))
    let ingredients := pyJoin "\n"
      ((lines.drop 1).filterMap (fun line =>
        if pyStrip line ≠ "" ∧ pyStartsWith (pyStrip line) "## " then
          some (pyReplace (pyStrip line) "## " "")
        else none))
    if url ≠ "" ∧ ingredients ≠ "" then some ⟨url, ingredients⟩ else none

/-- Embedding of `IngredientService._parse_input_to_list`. -/
def parse_input_to_list (input_text : String) : List Recipe :=
  (pySplit input_text "\n# ").filterMap parseSection

/-! ## services/ingredients.py : `_add_meals_with_day_pairing` -/

/-- Embedding of `day_pairs` from `_add_meals_with_day_pairing`. -/
def day_pairs : List (String × String) :=
  [("Monday", "Tuesday"), ("Wednesday", "Thursday"), ("Friday", "Saturday"),
   ("Sunday", "Sunday")]

/-- Embedding of `pair_index = index // 2` followed by `if pair_index >= len(day_pairs): pair_index %= len(day_pairs)`. -/
def pairIndexOf (index : Nat) : Nat :=
  let p := index / 2
  if p ≥ day_pairs.length then p % day_pairs.length else p

/-- One row handed to `IngredientsRepository.insert_weekly_meal`. -/
structure InsertRow where
  link : String
  position : Int
  day_name : String
  meal_type : String
deriving Repr, DecidableEq

/-- The `for day_name in day_pair` loop for one recipe: emits the insert
calls in order, stops after the first day when it is `"Sunday"` (`break`),
and stops with the pending `ValueError` message when `_get_position`
raises.  Returns (inserts emitted so far, raised error). -/
def dayLoop (day_pair : String × String) (meal_type : String) (item : Recipe) :
    List InsertRow × Option String :=
  match get_position day_pair.1 meal_type with
  | Except.error e => ([], some e)
  | Except.ok pos1 =>
    let row1 : InsertRow := ⟨item.url, pos1, day_pair.1, meal_type⟩
    if day_pair.1 = "Sunday" then ([row1], none)
    else
      match get_position day_pair.2 meal_type with
      | Except.error e => ([row1], some e)
      | Except.ok pos2 => ([row1, ⟨item.url, pos2, day_pair.2, meal_type⟩], none)

/-- One iteration of the `enumerate` loop of
`_add_meals_with_day_pairing`: `day_pair = day_pairs[pair_index]`,
`meal_type = MEAL_TYPES[meal_index]` (both indices are always in range,
`getD` defaults are never reached). -/
def insertsForRecipe (index : Nat) (item : Recipe) : List InsertRow × Option String :=
  dayLoop (day_pairs.getD (pairIndexOf index) ("", ""))
    (MEAL_TYPES.getD (index % 2) "") item

/-- The `for index, item in enumerate(parsed_data)` loop:
`index` is the enumeration counter; an exception aborts the remaining
iterations, keeping the inserts already performed. -/
def addMealsGo : Nat → List Recipe → List InsertRow × Option String
  | _, [] => ([], none)
  | index, item :: rest =>
    match insertsForRecipe index item with
    | (rows, some e) => (rows, some e)
    | (rows, none) =>
      let t := addMealsGo (index + 1) rest
      (rows ++ t.1, t.2)

/-- Embedding of `IngredientService._add_meals_with_day_pairing`. -/
def add_meals_with_day_pairing (parsed_data : List Recipe) : List InsertRow × Option String :=
  addMealsGo 0 parsed_data

/-- The insert block of one recipe at one index (first projection of
`insertsForRecipe`). -/
def recipeBlock (index : Nat) (item : Recipe) : List InsertRow :=
  (insertsForRecipe index item).1

/-- The per-index insert blocks of the whole `enumerate` loop, starting at
a given counter value (the loop itself starts at 0). -/
def blocksFrom : Nat → List Recipe → List InsertRow
  | _, [] => []
  | i, item :: rest => recipeBlock i item ++ blocksFrom (i + 1) rest

/-! ## services/weekly.py : `swap_meal_positions`

The `weekly` table is threaded explicitly: each operation takes the stored
rows and returns the possibly-mutated rows next to its outcome. -/

/-- One row of the `weekly` table. -/
structure MealRow where
  id : String
  link : Option String
  position : Int
  day_name : String
  meal_type : String
deriving Repr, DecidableEq

/-- The exceptions `swap_meal_positions` can surface: a bare `ValueError`
raised before the `try` block, or the `WeeklyServiceError` the
`except Exception` handler wraps every inner exception into, whose message
is `f"Database error during meal swap: {e}"`. -/
inductive SwapFailure where
  | valueError (msg : String)
  | weeklyServiceError (msg : String)
deriving Repr, DecidableEq

/-- The f-string of the inner not-found `ValueError`s. -/
def notFoundMsg (meal_id : String) : String :=
  "Meal with ID " ++ meal_id ++ " not found"

/-- Embedding of the query `select("position").eq("id", meal_id).limit(1)`:
the `data` attribute of the query result. -/
def select_position_data (table : List MealRow) (meal_id : String) : List Int :=
  ((table.filter (fun r => r.id == meal_id)).map (fun r => r.position)).take 1

/-- Embedding of the query `update(...).eq("id", meal_id)` issued by the swap:
only the `position` column is written. -/
def update_position_only (table : List MealRow) (meal_id : String) (pos : Int) :
    List MealRow :=
  table.map (fun r => if r.id == meal_id then { r with position := pos } else r)

/-- Embedding of `WeeklyService.swap_meal_positions(meal1_id, meal2_id)` over a stored
table; returns the table after the call and the outcome (the Python
success value `{"status": "success"}` carries no information). -/
def swap_meal_positions (meal1_id meal2_id : String) (table : List MealRow) :
    List MealRow × Except SwapFailure Unit :=
  if meal1_id = "" ∨ meal2_id = "" then
    (table, Except.error (SwapFailure.valueError "Both meal1_id and meal2_id are required"))
  else
    match select_position_data table meal1_id with
    | [] => (table, Except.error (SwapFailure.weeklyServiceError
        ("Database error during meal swap: " ++ notFoundMsg meal1_id)))
    | meal1_pos :: _ =>
      match select_position_data table meal2_id with
      | [] => (table, Except.error (SwapFailure.weeklyServiceError
          ("Database error during meal swap: " ++ notFoundMsg meal2_id)))
      | meal2_pos :: _ =>
        (update_position_only (update_position_only table meal1_id meal2_pos)
          meal2_id meal1_pos, Except.ok ())

/-- Embedding of `WeeklyRepository.update_position` from `db/weekly_repository.py`: the
one writer that does rewrite `position`, `day_name` and `meal_type`
together (it is not invoked by `swap_meal_positions`). -/
def weekly_repository_update_position (table : List MealRow) (meal_id : String)
    (position : Int) : Except String (List MealRow) :=
  if position < 0 ∨ position > 13 then
    Except.error ("Invalid position: " ++ toString position ++
      ". Must be integer between 0 and 13.")
  else
    match POSITION_MAP.lookup position with
    | none => Except.error "unreachable: validated position not in POSITION_MAP"
    | some dm =>
      Except.ok (table.map (fun r =>
        if r.id == meal_id then
          { r with position := position, day_name := dm.1, meal_type := dm.2 }
        else r))

/-! ## services/weekly.py : `get_weekly_meal_plan` -/

/-- The dict payload of one fetched row, as far as `get_weekly_meal_plan`
inspects it: whether the `"link"` key is present, the value of
`"position"` (`none` for an absent key or a null value), and the remaining
payload collapsed into an opaque tag so that distinct rows stay
distinguishable. -/
structure RowDict where
  hasLink : Bool
  position : Option Int
  tag : String
deriving Repr, DecidableEq

/-- One element of `weekly_table.data`: the code defends against non-dict
elements with `isinstance(link, dict)`. -/
inductive DbItem where
  | notDict
  | dict (d : RowDict)
deriving Repr, DecidableEq

/-- The nested `day -> meal -> entries` dict, embedded as an association
list in insertion order. -/
abbrev MealPlan := List (String × List (String × List RowDict))

/-- Embedding of `WeeklyService._create_empty_meal_plan`. -/
def create_empty_meal_plan : MealPlan :=
  [ ("Monday", [("Lunch", []), ("Dinner", [])]),
    ("Tuesday", [("Lunch", []), ("Dinner", [])]),
    ("Wednesday", [("Lunch", []), ("Dinner", [])]),
    ("Thursday", [("Lunch", []), ("Dinner", [])]),
    ("Friday", [("Lunch", []), ("Dinner", [])]),
    ("Saturday", [("Lunch", []), ("Dinner", [])]),
    ("Sunday", [("Lunch", []), ("Dinner", [])]) ]

/-- Embedding of `meal_plan[day][meal].append(link)`: dict indexing on the two fixed-key
levels, embedded as an in-place update of the matching association-list
entries. -/
def appendToPlan (plan : MealPlan) (day meal : String) (x : RowDict) : MealPlan :=
  plan.map (fun e =>
    (e.1, if e.1 = day then
      e.2.map (fun me => (me.1, if me.1 = meal then me.2 ++ [x] else me.2))
    else e.2))

/-- The body of the `for link in links` loop of `get_weekly_meal_plan`. -/
def planStep (plan : MealPlan) (item : DbItem) : MealPlan :=
  match item with
  | DbItem.notDict => plan
  | DbItem.dict d =>
    if d.hasLink = false then plan
    else
      match d.position with
      | none => plan
      | some p =>
        match POSITION_MAP.lookup p with
        | none => plan
        | some dm => appendToPlan plan dm.1 dm.2 d

/-- Embedding of `WeeklyService.get_weekly_meal_plan`, as a function of the fetched rows
(the fetch itself and the `WeeklyServiceError` wrapper around persistence
failures are external). -/
def get_weekly_meal_plan (links : List DbItem) : MealPlan :=
  links.foldl planStep create_empty_meal_plan

/-- The seven day names, in the order of `_create_empty_meal_plan`. -/
def days7 : List String :=
  ["Monday", "Tuesday", "Wednesday", "Thursday", "Friday", "Saturday", "Sunday"]

/-- All entries stored anywhere in a plan. -/
def planItems (plan : MealPlan) : List RowDict :=
  (plan.map (fun e => (e.2.map (fun me => me.2)).flatten)).flatten

/-! ## Error envelopes: routes/api.py and services/ingredients.py -/

/-- The `error` object of the wire envelope
`{"status": "error", "error": {"code", "message", "details"?}}`;
`error_type` is `details.error_type` when present. -/
structure ErrorEnvelope where
  code : String
  message : String
  error_type : Option String
deriving Repr, DecidableEq

/-- The `except Exception` branch of `IngredientService.process_recipes`:
a fixed message, the original exception only as
`details.error_type = type(exc).__name__`. -/
def processRecipesErrorEnvelope (excTypeName : String) : ErrorEnvelope :=
  { code := "PROCESSING_ERROR",
    message := "An error occurred while processing the recipes. Please try again.",
    error_type := some excTypeName }

/-- Message of `WeeklyServiceError(f"Database error during meal swap: ...")`:
`str()` of the wrapper raised by `swap_meal_positions`, as a function of
`str(e)` of the underlying exception. -/
def weeklyServiceErrorMessage (rawError : String) : String :=
  "Database error during meal swap: " ++ rawError

/-- The `except Exception` branch of the `/swap-meals` route handler in
`routes/api.py`: `{"code": INTERNAL_ERROR, "message": str(exc)}`. -/
def swapRouteErrorEnvelope (excMessage : String) : ErrorEnvelope :=
  { code := "INTERNAL_ERROR", message := excMessage, error_type := none }

/-- The envelope the client receives when a swap fails on an underlying
storage error with text `rawError`. -/
def swapFailureEnvelope (rawError : String) : ErrorEnvelope :=
  swapRouteErrorEnvelope (weeklyServiceErrorMessage rawError)

/-! ## services/ingredients.py : `process_recipes` and the request schema -/

/-- One input field of `IngredientService._clean_input_texts`:
`"\n".join(line.strip() for line in text.splitlines() if line.strip())`
(under the non-blank filter, splitting on `"\n"` agrees with Python
`splitlines` for the inputs at hand). -/
def clean_input_text (text : String) : String :=
  pyJoin "\n" (((pySplit text "\n").map pyStrip).filter (fun l => l ≠ ""))

/-- Outcome of `process_recipes`: the success envelope's
`ingredients_content` (the elapsed LLM time is real time, not modelled),
or the error envelope. -/
inductive ProcessResult where
  | success (content : String)
  | failure (env : ErrorEnvelope)
deriving Repr, DecidableEq

/-- Steps 4–5 of `process_recipes`: the LLM call either raises (caught by
the `except` handler) or its content is cleaned and returned. -/
def llmStage (clean : String → String) (res : Except String String) : ProcessResult :=
  match res with
  | Except.error excTypeName => ProcessResult.failure (processRecipesErrorEnvelope excTypeName)
  | Except.ok content => ProcessResult.success (clean content)

/-- Embedding of `IngredientService.process_recipes` over a
stored `weekly` table.  External collaborators are parameters: `llm`
models `_generate_shopping_list` (argument: the aggregate ingredients
text and the cleaned `have_at_home`; error: the exception type name),
`clean` models the bleach `Cleaner`.  Client/cleaner construction is
assumed not to raise.  Note the source deletes the stored rows before any
validation or parsing, and performs no input validation at all. -/
def process_recipes (llm : String → String → Except String String)
    (clean : String → String) (recipes_text : String)
    (have_at_home : Option String) (_table : List InsertRow) :
    List InsertRow × ProcessResult :=
  -- Step 2: self.ingredients_repository.delete_all_weekly()
  let table1 : List InsertRow := []
  let cleaned_recipes := clean_input_text recipes_text
  let cleaned_have_at_home :=
    match have_at_home with
    | none => ""
    | some h => clean_input_text h
  -- Step 3: parse and store
  let parsed_recipes := parse_input_to_list cleaned_recipes
  let ins := add_meals_with_day_pairing parsed_recipes
  let table2 := table1 ++ ins.1
  match ins.2 with
  | some _ => (table2, ProcessResult.failure (processRecipesErrorEnvelope "ValueError"))
  | none =>
    -- Steps 4-5: LLM call, sanitize and return
    let ingredients_text := pyJoin "\n\n" (parsed_recipes.map Recipe.ingredients)
    (table2, llmStage clean (llm ingredients_text cleaned_have_at_home))

/-- The `recipes_text` constraint of `schemas/ingredients.py
IngredientsRequest`: whitespace-stripped (`str_strip_whitespace=True`),
then `min_length=10`.  Requests failing it are rejected with a 422
validation envelope before any service code runs. -/
def recipes_text_valid (recipes_text : String) : Bool :=
  10 ≤ (pyStrip recipes_text).length

/-! ## Helper definitions for the statements -/

/-- Row-level effect of the two consecutive position-only updates of
`swap_meal_positions(meal1_id, meal2_id)` when the fetched positions were
`pos1` (of `meal1_id`) and `pos2` (of `meal2_id`). -/
def swappedRow (meal1_id meal2_id : String) (pos1 pos2 : Int) (r : MealRow) : MealRow :=
  if r.id == meal2_id then { r with position := pos1 }
  else if r.id == meal1_id then { r with position := pos2 }
  else r

/-- A plan offers a landing slot for every `(day, meal)` pair of
`POSITION_MAP`: the structural invariant `_create_empty_meal_plan`
establishes and every loop step preserves. -/
def hasAllSlots (plan : MealPlan) : Prop :=
  ∀ day ∈ days7, ∃ inner, plan.lookup day = some inner ∧
    (inner.lookup "Lunch").isSome ∧ (inner.lookup "Dinner").isSome

/-- The filter `get_weekly_meal_plan` applies to a fetched dict row:
`"link" in link` and `link.get("position")` non-null and a key of
`POSITION_MAP`. -/
def rowAccepted (d : RowDict) : Prop :=
  d.hasLink = true ∧ ∃ p, d.position = some p ∧ (POSITION_MAP.lookup p).isSome

/-! ## Shared lemmas: day-pairing loop -/

lemma pairIndexOf_eq_mod (i : Nat) : pairIndexOf i = (i / 2) % 4 := by
  have hl : day_pairs.length = 4 := rfl
  simp only [pairIndexOf, hl]
  split
  · rfl
  · next h => omega

lemma insertsForRecipe_snd (i : Nat) (item : Recipe) :
    (insertsForRecipe i item).2 = none := by
  have h4 : (i / 2) % 4 = 0 ∨ (i / 2) % 4 = 1 ∨ (i / 2) % 4 = 2 ∨ (i / 2) % 4 = 3 := by
    omega
  have h2 : i % 2 = 0 ∨ i % 2 = 1 := by omega
  simp only [insertsForRecipe, pairIndexOf_eq_mod]
  rcases h4 with h | h | h | h <;> rcases h2 with h' | h' <;> rw [h, h'] <;> rfl

lemma insertsForRecipe_eq (i : Nat) (item : Recipe) :
    insertsForRecipe i item = (recipeBlock i item, none) := by
  rw [← insertsForRecipe_snd i item]
  rfl

lemma addMealsGo_eq (l : List Recipe) : ∀ i : Nat, addMealsGo i l = (blocksFrom i l, none) := by
  induction l with
  | nil => intro i; rfl
  | cons item rest ih =>
    intro i
    simp only [addMealsGo, insertsForRecipe_eq, blocksFrom, ih (i + 1)]

lemma add_meals_eq (l : List Recipe) :
    add_meals_with_day_pairing l = (blocksFrom 0 l, none) :=
  addMealsGo_eq l 0

lemma llmStage_failure_code (clean : String → String) (res : Except String String)
    (env : ErrorEnvelope) (h : llmStage clean res = ProcessResult.failure env) :
    env.code = "PROCESSING_ERROR" := by
  cases res with
  | error e =>
    simp only [llmStage, ProcessResult.failure.injEq] at h
    rw [← h]
    rfl
  | ok c => simp [llmStage] at h

/-! ## C5 : slot round-trip -/

/-- C5: for every slot in [0,13], converting the slot to its (day, meal)
pair via `POSITION_MAP` / `get_day_and_meal` and converting back via the
ad-hoc reverse map of `_get_position` yields the original slot. -/
theorem slot_roundtrip (slot : Int) (h0 : 0 ≤ slot) (h13 : slot ≤ 13) :
    ∃ dm, POSITION_MAP.lookup slot = some dm ∧
      get_day_and_meal slot = Except.ok dm ∧
      get_position dm.1 dm.2 = Except.ok slot := by
  interval_cases slot <;> exact ⟨_, rfl, rfl, rfl⟩

/-- Witness for C5 at slot 9 (Friday Dinner). -/
theorem slot_roundtrip_witness :
    ∃ dm, POSITION_MAP.lookup (9 : Int) = some dm ∧
      get_day_and_meal 9 = Except.ok dm ∧
      get_position dm.1 dm.2 = Except.ok 9 :=
  slot_roundtrip 9 (by decide) (by decide)

/-! ## C9 : recipe parser -/

/-- C9: on the two-recipe example input the parser returns exactly the two
records in order of appearance; and any section none of whose later lines
is a non-blank `"## "` sub-heading line is dropped entirely. -/
theorem parser_example_and_drop :
    parse_input_to_list "# http://a\n## x\n## y\n# http://b\n## z" =
      [⟨"http://a", "x\ny"⟩, ⟨"http://b", "z"⟩] ∧
    (∀ sec : String,
      (∀ line ∈ (pySplit (pyStrip sec) "\n").drop 1,
        ¬ (pyStrip line ≠ "" ∧ pyStartsWith (pyStrip line) "## ")) →
      parseSection sec = none) := by
  constructor
  · rfl
  · intro sec h
    by_cases h0 : pyStrip sec = ""
    · simp [parseSection, h0]
    · have hnil : ((pySplit (pyStrip sec) "\n").drop 1).filterMap (fun line =>
          if pyStrip line ≠ "" ∧ pyStartsWith (pyStrip line) "## " then
            some (pyReplace (pyStrip line) "## " "")
          else none) = [] := by
        rw [List.filterMap_eq_nil_iff]
        intro line hline
        rw [if_neg (h line hline)]
      simp only [parseSection, if_neg h0, hnil]
      have hjoin : pyJoin "\n" [] = "" := rfl
      rw [hjoin]
      simp

/-- Witness for C9's section-drop clause: a one-line section with a URL
and no sub-heading lines parses to nothing. -/
theorem parser_drop_witness : parseSection "# http://only-a-url" = none :=
  parser_example_and_drop.2 "# http://only-a-url" (by decide)

/-! ## C1 : swap rewrites position but not the derived day/meal fields -/

/-- C1 counterexample: swapping the meals at positions 3 and 7 does give
meal "a" position 7, but its `day_name` stays "Tuesday" even though the
slot mapping derives ("Thursday", "Dinner") from position 7 — the source
updates `{"position": ...}` only, so the claimed `day_name`/`meal_type`
rewrite does not happen. -/
theorem swap_leaves_day_fields_stale :
    swap_meal_positions "a" "b"
        [⟨"a", none, 3, "Tuesday", "Dinner"⟩, ⟨"b", none, 7, "Thursday", "Dinner"⟩] =
      ([⟨"a", none, 7, "Tuesday", "Dinner"⟩, ⟨"b", none, 3, "Thursday", "Dinner"⟩],
        Except.ok ()) ∧
    POSITION_MAP.lookup (7 : Int) = some ("Thursday", "Dinner") ∧
    ("Tuesday" : String) ≠ "Thursday" := by
  exact ⟨rfl, rfl, by decide⟩

/-- C1 amended: after a successful swap the two ids exchange their
positions, but every row keeps its `day_name`, `meal_type` and `link`
unchanged — the position update is partial, no day/meal pair is derived
from the new position. -/
theorem swap_exchanges_positions_only (meal1_id meal2_id : String)
    (table : List MealRow) (pos1 pos2 : Int)
    (h1 : meal1_id ≠ "") (h2 : meal2_id ≠ "")
    (hA : select_position_data table meal1_id = [pos1])
    (hB : select_position_data table meal2_id = [pos2]) :
    swap_meal_positions meal1_id meal2_id table =
      (table.map (swappedRow meal1_id meal2_id pos1 pos2), Except.ok ()) ∧
    (∀ r : MealRow, (swappedRow meal1_id meal2_id pos1 pos2 r).id = r.id ∧
      (swappedRow meal1_id meal2_id pos1 pos2 r).day_name = r.day_name ∧
      (swappedRow meal1_id meal2_id pos1 pos2 r).meal_type = r.meal_type ∧
      (swappedRow meal1_id meal2_id pos1 pos2 r).link = r.link) ∧
    (∀ r : MealRow, r.id = meal2_id →
      (swappedRow meal1_id meal2_id pos1 pos2 r).position = pos1) ∧
    (∀ r : MealRow, r.id = meal1_id → r.id ≠ meal2_id →
      (swappedRow meal1_id meal2_id pos1 pos2 r).position = pos2) := by
  have hcond : ¬ (meal1_id = "" ∨ meal2_id = "") := by
    push_neg
    exact ⟨h1, h2⟩
  refine ⟨?_, ?_, ?_, ?_⟩
  · simp only [swap_meal_positions, if_neg hcond, hA, hB]
    simp only [update_position_only, List.map_map]
    have hfun : ((fun r => if r.id == meal2_id then { r with position := pos1 } else r) ∘
        (fun r : MealRow => if r.id == meal1_id then { r with position := pos2 } else r)) =
        swappedRow meal1_id meal2_id pos1 pos2 := by
      funext r
      simp only [Function.comp, swappedRow]
      by_cases e1 : (r.id == meal1_id) = true <;>
        by_cases e2 : (r.id == meal2_id) = true <;>
        simp [e1, e2]
    rw [hfun]
  · intro r
    unfold swappedRow
    by_cases e2 : (r.id == meal2_id) = true <;> by_cases e1 : (r.id == meal1_id) = true <;>
      simp [e1, e2]
  · intro r hr
    unfold swappedRow
    rw [if_pos (by simp [hr])]
  · intro r hr hne
    unfold swappedRow
    rw [if_neg (by simp [hr]; exact hr ▸ hne), if_pos (by simp [hr])]

/-- Witness for C1's amended theorem on a concrete two-row table. -/
theorem swap_exchanges_positions_only_witness :
    swap_meal_positions "a" "b"
        [⟨"a", none, 3, "Tuesday", "Dinner"⟩, ⟨"b", none, 7, "Thursday", "Dinner"⟩] =
      ([⟨"a", none, 3, "Tuesday", "Dinner"⟩, ⟨"b", none, 7, "Thursday", "Dinner"⟩].map
        (swappedRow "a" "b" 3 7), Except.ok ()) :=
  (swap_exchanges_positions_only "a" "b"
    [⟨"a", none, 3, "Tuesday", "Dinner"⟩, ⟨"b", none, 7, "Thursday", "Dinner"⟩]
    3 7 (by decide) (by decide) rfl rfl).1

/-! ## C4 : swap with a missing id -/

/-- C4: when either id of a swap has no stored row, the call fails with
the wrapped not-found error naming the missing id (the inner
`ValueError(f"Meal with ID {id} not found")`, surfaced through the
`WeeklyServiceError` wrapper), and the stored table is unchanged — both
raises happen before either UPDATE. -/
theorem swap_missing_id_no_mutation (meal1_id meal2_id : String) (table : List MealRow)
    (h1 : meal1_id ≠ "") (h2 : meal2_id ≠ "")
    (hmiss : select_position_data table meal1_id = [] ∨
      select_position_data table meal2_id = []) :
    ∃ missing, (missing = meal1_id ∨ missing = meal2_id) ∧
      select_position_data table missing = [] ∧
      swap_meal_positions meal1_id meal2_id table =
        (table, Except.error (SwapFailure.weeklyServiceError
          (weeklyServiceErrorMessage (notFoundMsg missing)))) := by
  have hcond : ¬ (meal1_id = "" ∨ meal2_id = "") := by
    push_neg
    exact ⟨h1, h2⟩
  by_cases hA : select_position_data table meal1_id = []
  · exact ⟨meal1_id, Or.inl rfl, hA, by
      simp only [swap_meal_positions, if_neg hcond, hA, weeklyServiceErrorMessage]⟩
  · have hB : select_position_data table meal2_id = [] := hmiss.resolve_left hA
    obtain ⟨p, l, hpl⟩ : ∃ p l, select_position_data table meal1_id = p :: l := by
      cases hsel : select_position_data table meal1_id with
      | nil => exact absurd hsel hA
      | cons p l => exact ⟨p, l, rfl⟩
    exact ⟨meal2_id, Or.inr rfl, hB, by
      simp only [swap_meal_positions, if_neg hcond, hpl, hB, weeklyServiceErrorMessage]⟩

/-- Witness for C4: swapping an existing meal with the absent id "zzz"
fails naming "zzz" and leaves the table as it was. -/
theorem swap_missing_id_no_mutation_witness :
    swap_meal_positions "a" "zzz" [⟨"a", none, 3, "Tuesday", "Dinner"⟩] =
      ([⟨"a", none, 3, "Tuesday", "Dinner"⟩],
        Except.error (SwapFailure.weeklyServiceError
          (weeklyServiceErrorMessage (notFoundMsg "zzz")))) := by
  obtain ⟨m, hm, hsel, heq⟩ := swap_missing_id_no_mutation "a" "zzz"
    [⟨"a", none, 3, "Tuesday", "Dinner"⟩] (by decide) (by decide) (Or.inr (by decide))
  rcases hm with rfl | rfl
  · exact absurd hsel (by decide)
  · exact heq

/-! ## C3 : error envelope message hygiene -/

/-- C3 counterexample: the `/swap-meals` failure envelope's `message`
field is `str(exc)` of the `WeeklyServiceError`, which embeds the raw text
of the underlying storage error — it is not a fixed string, and the raw
text appears in `message` rather than only under `details.error_type`. -/
theorem swap_error_message_not_fixed :
    (swapFailureEnvelope "connection refused by db host").message ≠
      (swapFailureEnvelope "duplicate key value on weekly.position").message ∧
    (swapFailureEnvelope "connection refused by db host").message =
      "Database error during meal swap: connection refused by db host" :=
  ⟨by decide, rfl⟩

/-- C3 amended: the ingredients-processing envelope does satisfy the
policy — its `message` is one fixed string whatever the exception was, and
the exception's identity appears only as `details.error_type` — while the
swap failure envelope's `message` embeds the raw error text after the
fixed prefix. -/
theorem error_envelope_message_policy :
    (∀ t u : String, (processRecipesErrorEnvelope t).message =
      (processRecipesErrorEnvelope u).message) ∧
    (∀ t : String, (processRecipesErrorEnvelope t).message =
        "An error occurred while processing the recipes. Please try again." ∧
      (processRecipesErrorEnvelope t).error_type = some t) ∧
    (∀ rawError : String, (swapFailureEnvelope rawError).message =
      "Database error during meal swap: " ++ rawError) :=
  ⟨fun _ _ => rfl, fun _ => ⟨rfl, rfl⟩, fun _ => rfl⟩

/-! ## C2 : empty-string ingest -/

/-- C2 counterexample: `process_recipes("")` performs the full-table
delete (the stored row disappears) and does not fail with any validation
error — when the external LLM call succeeds it even returns success.  The
delete is issued before any parsing, and `process_recipes` itself
validates nothing. -/
theorem process_recipes_empty_input_deletes :
    process_recipes (fun _ _ => Except.ok "<div>ok</div>") (fun s => s) "" none
        [⟨"http://x", 0, "Monday", "Lunch"⟩] =
      ([], ProcessResult.success "<div>ok</div>") ∧
    ([⟨"http://x", 0, "Monday", "Lunch"⟩] : List InsertRow) ≠ [] :=
  ⟨rfl, by decide⟩

/-- C2 amended: the empty-string input is rejected by the request schema
(`min_length=10` after stripping), so through the API no delete or insert
happens; `process_recipes` itself, invoked with the empty string, clears
every stored meal row, inserts nothing, and never reports an
invalid-input error (any failure envelope it returns carries the
`PROCESSING_ERROR` code). -/
theorem process_recipes_empty_input_behavior
    (llm : String → String → Except String String) (clean : String → String)
    (have_at_home : Option String) (table : List InsertRow) :
    recipes_text_valid "" = false ∧
    (process_recipes llm clean "" have_at_home table).1 = [] ∧
    (∀ env, (process_recipes llm clean "" have_at_home table).2 =
        ProcessResult.failure env →
      env.code = "PROCESSING_ERROR") := by
  refine ⟨rfl, rfl, ?_⟩
  intro env henv
  cases have_at_home with
  | none => exact llmStage_failure_code clean (llm "" "") env henv
  | some hh => exact llmStage_failure_code clean (llm "" (clean_input_text hh)) env henv

/-- Witness for C2's amended theorem with a failing LLM oracle. -/
theorem process_recipes_empty_input_behavior_witness :
    recipes_text_valid "" = false ∧
    (processRecipesErrorEnvelope "APIError").code = "PROCESSING_ERROR" :=
  ⟨(process_recipes_empty_input_behavior (fun _ _ => Except.error "APIError") id none
      [⟨"http://u", 0, "Monday", "Lunch"⟩]).1,
    (process_recipes_empty_input_behavior (fun _ _ => Except.error "APIError") id none
      [⟨"http://u", 0, "Monday", "Lunch"⟩]).2.2
      (processRecipesErrorEnvelope "APIError") rfl⟩

/-! ## C6 : eight recipes fill the 14 slots -/

/-- C6: with exactly 8 parsed recipes the day-pairing loop performs
exactly 14 inserts: recipes at indices 0–5 produce two rows each (one per
day of their pair), recipes 6 and 7 produce exactly one Sunday row each,
and each Sunday slot (positions 12 and 13) is written exactly once. -/
theorem day_pairing_eight_recipes (recipes : List Recipe) (h : recipes.length = 8) :
    ∃ rows, add_meals_with_day_pairing recipes = (rows, none) ∧
      rows.length = 14 ∧
      (∀ i item, i < 6 → (recipeBlock i item).length = 2) ∧
      (∀ item, recipeBlock 6 item = [⟨item.url, 12, "Sunday", "Lunch"⟩]) ∧
      (∀ item, recipeBlock 7 item = [⟨item.url, 13, "Sunday", "Dinner"⟩]) ∧
      (rows.filter (fun row => row.position == 12)).length = 1 ∧
      (rows.filter (fun row => row.position == 13)).length = 1 := by
  rcases recipes with _ | ⟨r0, _ | ⟨r1, _ | ⟨r2, _ | ⟨r3, _ | ⟨r4, _ | ⟨r5, _ | ⟨r6, _ |
    ⟨r7, _ | ⟨r8, tl⟩⟩⟩⟩⟩⟩⟩⟩⟩ <;> simp only [List.length] at h <;> try omega
  refine ⟨blocksFrom 0 [r0, r1, r2, r3, r4, r5, r6, r7], add_meals_eq _,
    rfl, ?_, fun item => rfl, fun item => rfl, rfl, rfl⟩
  intro i item hi
  interval_cases i <;> rfl

/-- Witness for C6 on eight concrete recipes. -/
theorem day_pairing_eight_recipes_witness :
    ∃ rows, add_meals_with_day_pairing
        [⟨"http://u0", "a"⟩, ⟨"http://u1", "b"⟩, ⟨"http://u2", "c"⟩, ⟨"http://u3", "d"⟩,
          ⟨"http://u4", "e"⟩, ⟨"http://u5", "f"⟩, ⟨"http://u6", "g"⟩, ⟨"http://u7", "h"⟩] =
      (rows, none) ∧
      rows.length = 14 ∧
      (∀ i item, i < 6 → (recipeBlock i item).length = 2) ∧
      (∀ item, recipeBlock 6 item = [⟨item.url, 12, "Sunday", "Lunch"⟩]) ∧
      (∀ item, recipeBlock 7 item = [⟨item.url, 13, "Sunday", "Dinner"⟩]) ∧
      (rows.filter (fun row => row.position == 12)).length = 1 ∧
      (rows.filter (fun row => row.position == 13)).length = 1 :=
  day_pairing_eight_recipes _ rfl

/-! ## C7 : wrap-around beyond eight recipes -/

/-- C7: the pair index of recipe `i` is `(i / 2) % 4`; recipe index 8
therefore wraps back to pair 0 and inserts Monday-Lunch (position 0) and
Tuesday-Lunch (position 2) rows — the same slots recipe 0 already filled —
so with 9 or more recipes those two slots each receive at least two
insert rows, with no deduplication at this layer. -/
theorem day_pairing_wraparound :
    (∀ i : Nat, pairIndexOf i = (i / 2) % 4) ∧
    (∀ item : Recipe,
      recipeBlock 8 item =
        [⟨item.url, 0, "Monday", "Lunch"⟩, ⟨item.url, 2, "Tuesday", "Lunch"⟩] ∧
      recipeBlock 0 item =
        [⟨item.url, 0, "Monday", "Lunch"⟩, ⟨item.url, 2, "Tuesday", "Lunch"⟩]) ∧
    (∀ recipes : List Recipe, 9 ≤ recipes.length →
      ∃ rows, add_meals_with_day_pairing recipes = (rows, none) ∧
        2 ≤ (rows.filter (fun row => row.position == 0)).length ∧
        2 ≤ (rows.filter (fun row => row.position == 2)).length) := by
  refine ⟨pairIndexOf_eq_mod, fun item => ⟨rfl, rfl⟩, ?_⟩
  intro recipes h
  rcases recipes with _ | ⟨r0, _ | ⟨r1, _ | ⟨r2, _ | ⟨r3, _ | ⟨r4, _ | ⟨r5, _ | ⟨r6, _ |
    ⟨r7, _ | ⟨r8, tl⟩⟩⟩⟩⟩⟩⟩⟩⟩ <;> simp only [List.length] at h <;> try omega
  refine ⟨blocksFrom 0 (r0 :: r1 :: r2 :: r3 :: r4 :: r5 :: r6 :: r7 :: r8 :: tl),
    add_meals_eq _, ?_, ?_⟩
  · have hfilter : (blocksFrom 0
        (r0 :: r1 :: r2 :: r3 :: r4 :: r5 :: r6 :: r7 :: r8 :: tl)).filter
          (fun row => row.position == 0) =
        ⟨r0.url, 0, "Monday", "Lunch"⟩ :: ⟨r8.url, 0, "Monday", "Lunch"⟩ ::
          (blocksFrom 9 tl).filter (fun row => row.position == 0) := rfl
    rw [hfilter]
    simp only [List.length_cons]
    omega
  · have hfilter : (blocksFrom 0
        (r0 :: r1 :: r2 :: r3 :: r4 :: r5 :: r6 :: r7 :: r8 :: tl)).filter
          (fun row => row.position == 2) =
        ⟨r0.url, 2, "Tuesday", "Lunch"⟩ :: ⟨r8.url, 2, "Tuesday", "Lunch"⟩ ::
          (blocksFrom 9 tl).filter (fun row => row.position == 2) := rfl
    rw [hfilter]
    simp only [List.length_cons]
    omega

/-! ## Shared lemmas: weekly plan view -/

lemma lookup_map_valueUpdate {β : Type} (f : String → β → β) :
    ∀ (l : List (String × β)) (k : String),
      (l.map (fun e => (e.1, f e.1 e.2))).lookup k = (l.lookup k).map (f k) := by
  intro l k
  induction l with
  | nil => rfl
  | cons e t ih =>
    cases hbe : k == e.1 with
    | true =>
      have hk : k = e.1 := by simpa using hbe
      simp [List.lookup, hbe, hk]
    | false => simp [List.lookup, hbe, ih]

lemma lookup_appendToPlan (plan : MealPlan) (day meal : String) (x : RowDict)
    (k : String) :
    (appendToPlan plan day meal x).lookup k = (plan.lookup k).map
      (fun inner => if k = day then
        inner.map (fun me => (me.1, if me.1 = meal then me.2 ++ [x] else me.2))
      else inner) := by
  have h := lookup_map_valueUpdate (β := List (String × List RowDict))
    (fun key v => if key = day then
      v.map (fun me => (me.1, if me.1 = meal then me.2 ++ [x] else me.2))
    else v) plan k
  exact h

lemma lookup_eq_some_mem {α β : Type} [BEq α] [LawfulBEq α] (l : List (α × β))
    (k : α) (v : β) (h : l.lookup k = some v) : ∃ e ∈ l, e.1 = k ∧ e.2 = v := by
  induction l with
  | nil => cases h
  | cons e t ih =>
    revert h
    cases hbe : k == e.1 with
    | true =>
      intro h
      simp only [List.lookup, hbe, Option.some.injEq] at h
      exact ⟨e, List.mem_cons_self e t, (eq_of_beq hbe).symm, h⟩
    | false =>
      intro h
      simp only [List.lookup, hbe] at h
      obtain ⟨e', he', hk, hv⟩ := ih h
      exact ⟨e', List.mem_cons_of_mem e he', hk, hv⟩

lemma hasAllSlots_appendToPlan (plan : MealPlan) (day meal : String) (x : RowDict)
    (h : hasAllSlots plan) : hasAllSlots (appendToPlan plan day meal x) := by
  intro dd hdd
  obtain ⟨inner, hin, hl, hd⟩ := h dd hdd
  rw [lookup_appendToPlan, hin]
  refine ⟨_, rfl, ?_, ?_⟩
  · split
    · rw [lookup_map_valueUpdate (fun key v => if key = meal then v ++ [x] else v)]
      obtain ⟨v, hv⟩ := Option.isSome_iff_exists.mp hl
      rw [hv]
      rfl
    · exact hl
  · split
    · rw [lookup_map_valueUpdate (fun key v => if key = meal then v ++ [x] else v)]
      obtain ⟨v, hv⟩ := Option.isSome_iff_exists.mp hd
      rw [hv]
      rfl
    · exact hd

lemma hasAllSlots_planStep (plan : MealPlan) (item : DbItem)
    (h : hasAllSlots plan) : hasAllSlots (planStep plan item) := by
  cases item with
  | notDict => exact h
  | dict d =>
    simp only [planStep]
    split
    · exact h
    · split
      · exact h
      · split
        · exact h
        · exact hasAllSlots_appendToPlan plan _ _ d h

lemma hasAllSlots_empty : hasAllSlots create_empty_meal_plan := by
  intro day hday
  fin_cases hday <;> exact ⟨_, rfl, by decide, by decide⟩

lemma hasAllSlots_foldl (links : List DbItem) :
    ∀ plan, hasAllSlots plan → hasAllSlots (links.foldl planStep plan) := by
  induction links with
  | nil => intro plan h; exact h
  | cons item rest ih => intro plan h; exact ih _ (hasAllSlots_planStep plan item h)

lemma mem_planItems_iff (plan : MealPlan) (d : RowDict) :
    d ∈ planItems plan ↔ ∃ e ∈ plan, ∃ me ∈ e.2, d ∈ me.2 := by
  constructor
  · intro hd
    unfold planItems at hd
    rw [List.mem_flatten] at hd
    obtain ⟨l, hl, hdl⟩ := hd
    rw [List.mem_map] at hl
    obtain ⟨e, he, rfl⟩ := hl
    rw [List.mem_flatten] at hdl
    obtain ⟨l2, hl2, hdl2⟩ := hdl
    rw [List.mem_map] at hl2
    obtain ⟨me, hme, rfl⟩ := hl2
    exact ⟨e, he, me, hme, hdl2⟩
  · rintro ⟨e, he, me, hme, hdme⟩
    unfold planItems
    rw [List.mem_flatten]
    refine ⟨(e.2.map (fun me => me.2)).flatten, List.mem_map.mpr ⟨e, he, rfl⟩, ?_⟩
    rw [List.mem_flatten]
    exact ⟨me.2, List.mem_map.mpr ⟨me, hme, rfl⟩, hdme⟩

lemma mem_planItems_appendToPlan (plan : MealPlan) (day meal : String) (x d : RowDict)
    (hland : ∃ e ∈ plan, e.1 = day ∧ ∃ me ∈ e.2, me.1 = meal) :
    d ∈ planItems (appendToPlan plan day meal x) ↔ d ∈ planItems plan ∨ d = x := by
  rw [mem_planItems_iff, mem_planItems_iff]
  constructor
  · rintro ⟨e, he, me, hme, hdme⟩
    rw [appendToPlan, List.mem_map] at he
    obtain ⟨e0, he0, rfl⟩ := he
    simp only at hme
    by_cases hd : e0.1 = day
    · rw [if_pos hd, List.mem_map] at hme
      obtain ⟨me0, hme0, rfl⟩ := hme
      simp only at hdme
      by_cases hm : me0.1 = meal
      · rw [if_pos hm] at hdme
        rcases List.mem_append.mp hdme with hin | hin
        · exact Or.inl ⟨e0, he0, me0, hme0, hin⟩
        · exact Or.inr (by simpa using hin)
      · rw [if_neg hm] at hdme
        exact Or.inl ⟨e0, he0, me0, hme0, hdme⟩
    · rw [if_neg hd] at hme
      exact Or.inl ⟨e0, he0, me, hme, hdme⟩
  · rintro (⟨e, he, me, hme, hdme⟩ | heq)
    · refine ⟨(e.1, if e.1 = day then
          e.2.map (fun me => (me.1, if me.1 = meal then me.2 ++ [x] else me.2))
        else e.2), List.mem_map.mpr ⟨e, he, rfl⟩, ?_⟩
      by_cases hd : e.1 = day
      · rw [if_pos hd]
        refine ⟨(me.1, if me.1 = meal then me.2 ++ [x] else me.2),
          List.mem_map.mpr ⟨me, hme, rfl⟩, ?_⟩
        by_cases hm : me.1 = meal
        · rw [if_pos hm]
          exact List.mem_append.mpr (Or.inl hdme)
        · rw [if_neg hm]
          exact hdme
      · rw [if_neg hd]
        exact ⟨me, hme, hdme⟩
    · obtain ⟨e, he, hkey, me, hme, hmkey⟩ := hland
      refine ⟨(e.1, if e.1 = day then
          e.2.map (fun me => (me.1, if me.1 = meal then me.2 ++ [x] else me.2))
        else e.2), List.mem_map.mpr ⟨e, he, rfl⟩, ?_⟩
      rw [if_pos hkey]
      refine ⟨(me.1, if me.1 = meal then me.2 ++ [x] else me.2),
        List.mem_map.mpr ⟨me, hme, rfl⟩, ?_⟩
      rw [if_pos hmkey]
      exact List.mem_append.mpr (Or.inr (by simp [heq]))

lemma hland_of_hasAllSlots (plan : MealPlan) (h : hasAllSlots plan) (p : Int)
    (dm : String × String) (hdm : POSITION_MAP.lookup p = some dm) :
    ∃ e ∈ plan, e.1 = dm.1 ∧ ∃ me ∈ e.2, me.1 = dm.2 := by
  obtain ⟨pr, hpr, _, hprv⟩ := lookup_eq_some_mem POSITION_MAP p dm hdm
  have hvals : ∀ pr ∈ POSITION_MAP, pr.2.1 ∈ days7 ∧
      (pr.2.2 = "Lunch" ∨ pr.2.2 = "Dinner") := by decide
  have hday : dm.1 ∈ days7 ∧ (dm.2 = "Lunch" ∨ dm.2 = "Dinner") := by
    rw [← hprv]
    exact hvals pr hpr
  obtain ⟨inner, hlook, hl, hd⟩ := h dm.1 hday.1
  obtain ⟨e', he', hk', hv'⟩ := lookup_eq_some_mem plan dm.1 inner hlook
  rcases hday.2 with hm | hm
  · obtain ⟨v, hv2⟩ := Option.isSome_iff_exists.mp hl
    obtain ⟨me, hme, hmk, _⟩ := lookup_eq_some_mem inner "Lunch" v hv2
    exact ⟨e', he', hk', me, by rw [hv']; exact hme, by rw [hmk, hm]⟩
  · obtain ⟨v, hv2⟩ := Option.isSome_iff_exists.mp hd
    obtain ⟨me, hme, hmk, _⟩ := lookup_eq_some_mem inner "Dinner" v hv2
    exact ⟨e', he', hk', me, by rw [hv']; exact hme, by rw [hmk, hm]⟩

lemma mem_planItems_planStep (plan : MealPlan) (item : DbItem) (d : RowDict)
    (h : hasAllSlots plan) :
    d ∈ planItems (planStep plan item) ↔
      d ∈ planItems plan ∨ (item = DbItem.dict d ∧ rowAccepted d) := by
  cases item with
  | notDict => simp [planStep]
  | dict d0 =>
    simp only [planStep]
    by_cases hLink : d0.hasLink = false
    · rw [if_pos hLink]
      constructor
      · exact Or.inl
      · rintro (hmem | ⟨heq, hacc⟩)
        · exact hmem
        · injection heq with h0
          subst h0
          rw [hacc.1] at hLink
          cases hLink
    · rw [if_neg hLink]
      have hLinkT : d0.hasLink = true := by
        revert hLink
        cases d0.hasLink <;> simp
      split
      next hp =>
        constructor
        · exact Or.inl
        · rintro (hmem | ⟨heq, hacc⟩)
          · exact hmem
          · injection heq with h0
            subst h0
            obtain ⟨_, q, hq, _⟩ := hacc
            rw [hp] at hq
            cases hq
      next p hp =>
        split
        next hLp =>
          constructor
          · exact Or.inl
          · rintro (hmem | ⟨heq, hacc⟩)
            · exact hmem
            · injection heq with h0
              subst h0
              obtain ⟨_, q, hq, hsome⟩ := hacc
              rw [hp] at hq
              injection hq with hq
              subst hq
              rw [hLp] at hsome
              cases hsome
        next dm hLp =>
          rw [mem_planItems_appendToPlan plan dm.1 dm.2 d0 d
            (hland_of_hasAllSlots plan h p dm hLp)]
          constructor
          · rintro (hmem | rfl)
            · exact Or.inl hmem
            · refine Or.inr ⟨rfl, hLinkT, p, hp, ?_⟩
              rw [hLp]
              rfl
          · rintro (hmem | ⟨heq, _⟩)
            · exact Or.inl hmem
            · injection heq with h0
              subst h0
              exact Or.inr rfl

lemma mem_planItems_foldl (links : List DbItem) (d : RowDict) :
    ∀ plan, hasAllSlots plan →
      (d ∈ planItems (links.foldl planStep plan) ↔
        d ∈ planItems plan ∨ (DbItem.dict d ∈ links ∧ rowAccepted d)) := by
  induction links with
  | nil =>
    intro plan _
    simp
  | cons item rest ih =>
    intro plan h
    rw [List.foldl_cons, ih (planStep plan item) (hasAllSlots_planStep plan item h),
      mem_planItems_planStep plan item d h]
    constructor
    · rintro ((hmem | ⟨heq, hacc⟩) | ⟨hrest, hacc⟩)
      · exact Or.inl hmem
      · exact Or.inr ⟨List.mem_cons.mpr (Or.inl heq.symm), hacc⟩
      · exact Or.inr ⟨List.mem_cons.mpr (Or.inr hrest), hacc⟩
    · rintro (hmem | ⟨hin, hacc⟩)
      · exact Or.inl (Or.inl hmem)
      · rcases List.mem_cons.mp hin with heq | hrest
        · exact Or.inl (Or.inr ⟨heq.symm, hacc⟩)
        · exact Or.inr ⟨hrest, hacc⟩

/-! ## C8 : the view always carries all 7 x 2 keys -/

/-- C8: for every fetch result the weekly plan view contains all seven day
names as outer keys and both meal types as inner keys; on the empty table
the view is the empty plan, all of whose 14 lists are empty. -/
theorem weekly_plan_always_complete (links : List DbItem) :
    (∀ day ∈ days7, ∃ inner, (get_weekly_meal_plan links).lookup day = some inner ∧
      (inner.lookup "Lunch").isSome ∧ (inner.lookup "Dinner").isSome) ∧
    get_weekly_meal_plan [] = create_empty_meal_plan ∧
    (∀ e ∈ create_empty_meal_plan, ∀ me ∈ e.2, me.2 = ([] : List RowDict)) := by
  refine ⟨?_, rfl, by decide⟩
  exact hasAllSlots_foldl links create_empty_meal_plan hasAllSlots_empty

/-- Witness for C8 on a one-row fetch, at the day "Wednesday". -/
theorem weekly_plan_always_complete_witness :
    ∃ inner, (get_weekly_meal_plan [DbItem.dict ⟨true, some 4, "stew"⟩]).lookup
        "Wednesday" = some inner ∧
      (inner.lookup "Lunch").isSome ∧ (inner.lookup "Dinner").isSome :=
  (weekly_plan_always_complete [DbItem.dict ⟨true, some 4, "stew"⟩]).1
    "Wednesday" (by decide)

/-! ## C10 : exact row filter of the view -/

/-- C10: a fetched row lands in the rendered plan exactly when it is a
dict that has a `"link"` key and whose `"position"` value is a key of
`POSITION_MAP`; in particular a row with a valid position but no link is
silently dropped. -/
theorem weekly_plan_membership (links : List DbItem) (d : RowDict) :
    d ∈ planItems (get_weekly_meal_plan links) ↔
      (DbItem.dict d ∈ links ∧ d.hasLink = true ∧
        ∃ p, d.position = some p ∧ (POSITION_MAP.lookup p).isSome) := by
  have h := mem_planItems_foldl links d create_empty_meal_plan hasAllSlots_empty
  have hempty : planItems create_empty_meal_plan = [] := rfl
  unfold get_weekly_meal_plan
  rw [h, hempty]
  simp [rowAccepted]

/-- Witness for C7's wrap-around clause on nine concrete recipes. -/
theorem day_pairing_wraparound_witness :
    ∃ rows, add_meals_with_day_pairing
        [⟨"http://v0", "a"⟩, ⟨"http://v1", "b"⟩, ⟨"http://v2", "c"⟩, ⟨"http://v3", "d"⟩,
          ⟨"http://v4", "e"⟩, ⟨"http://v5", "f"⟩, ⟨"http://v6", "g"⟩, ⟨"http://v7", "h"⟩,
          ⟨"http://v8", "i"⟩] =
      (rows, none) ∧
      2 ≤ (rows.filter (fun row => row.position == 0)).length ∧
      2 ≤ (rows.filter (fun row => row.position == 2)).length :=
  day_pairing_wraparound.2.2 _ (by decide)

end Zestify
